import Mathlib

/-!
Verification development for the Yin-Yang foods search Lambda handler
(`src/index.mjs`).  The handler receives a search name, checks an in-memory
TTL cache, then a DynamoDB table, and on a miss generates an item record via
an external model, validates it against two JSON schemas, classifies its
consumability, persists it and returns it.

The shallow embedding below models JSON values as an inductive type, the two
ajv schemas as executable Boolean validators, the consumability denylist
check, the TTL cache, and the handler's control flow as a pure function over
an environment record that carries the outcome of every external call
(DynamoDB query, OpenAI call, DynamoDB put) together with the request-scoped
nondeterminism (current time, generated UUID, ISO timestamp).  The SHA-256
hex digest used for cache fingerprints and the JSON text parser are passed
to the handler as explicit function parameters, since the claims under
verification depend only on which strings are fed to them, not on their
internals.  String trimming and lowercasing model the JavaScript `trim` /
`toLowerCase` on the ASCII range.
-/

namespace YinYang

/-- JSON values as produced by `JSON.parse` / stored in DynamoDB
(numbers modelled as integers; no claim depends on numeric fields). -/
inductive Json where
  | null : Json
  | bool (b : Bool) : Json
  | num (n : Int) : Json
  | str (s : String) : Json
  | arr (elems : List Json) : Json
  | obj (fields : List (String × Json)) : Json

/-- JavaScript property read `o[k]` on an object: first binding for `k`
(objects produced by `JSON.parse` have unique keys); `undefined` is `none`. -/
def getField (j : Json) (k : String) : Option Json :=
  match j with
  | .obj fields => List.lookup k fields
  | _ => none

/-- Does the object carry a top-level property named `k`? -/
def hasField (j : Json) (k : String) : Bool :=
  match j with
  | .obj fields => fields.any (fun kv => kv.1 == k)
  | _ => false

/-- JavaScript property assignment on an association list: update the first
binding in place, or append a new binding (insertion order preserved). -/
def setFieldList : List (String × Json) → String → Json → List (String × Json)
  | [], k, v => [(k, v)]
  | (k', v') :: rest, k, v =>
      if k' == k then (k', v) :: rest else (k', v') :: setFieldList rest k v

/-- JavaScript property assignment `o[k] = v` (no-op on non-objects; the
handler only assigns to values that already passed the object-typed
input-schema check). -/
def setField (j : Json) (k : String) (v : Json) : Json :=
  match j with
  | .obj fields => .obj (setFieldList fields k v)
  | _ => j

/-- JavaScript truthiness of a JSON value (`if (x)`). -/
def jsTruthy : Json → Bool
  | .null => false
  | .bool b => b
  | .num n => n != 0
  | .str s => s != ""
  | .arr _ => true
  | .obj _ => true

/-! ### String helpers: the JavaScript `trim`, `toLowerCase`, `includes` -/

/-- ASCII lowercasing of one character, as JavaScript `toLowerCase` acts on
the ASCII range. -/
def jsCharToLower (c : Char) : Char :=
  match c with
  | 'A' => 'a' | 'B' => 'b' | 'C' => 'c' | 'D' => 'd' | 'E' => 'e'
  | 'F' => 'f' | 'G' => 'g' | 'H' => 'h' | 'I' => 'i' | 'J' => 'j'
  | 'K' => 'k' | 'L' => 'l' | 'M' => 'm' | 'N' => 'n' | 'O' => 'o'
  | 'P' => 'p' | 'Q' => 'q' | 'R' => 'r' | 'S' => 's' | 'T' => 't'
  | 'U' => 'u' | 'V' => 'v' | 'W' => 'w' | 'X' => 'x' | 'Y' => 'y'
  | 'Z' => 'z'
  | c => c

/-- `s.toLowerCase()` on the ASCII range. -/
def jsToLowerStr (s : String) : String :=
  String.mk (s.data.map jsCharToLower)

/-- Drop leading whitespace characters. -/
def trimLeftChars : List Char → List Char
  | [] => []
  | c :: cs => if c.isWhitespace then trimLeftChars cs else c :: cs

/-- Drop leading and trailing whitespace (the JavaScript `trim` on the
ASCII whitespace range). -/
def trimChars (cs : List Char) : List Char :=
  (trimLeftChars (trimLeftChars cs).reverse).reverse

/-- `s.trim()`. -/
def jsTrim (s : String) : String :=
  String.mk (trimChars s.data)

/-- Is `pat` a prefix of `l` (character-wise)? -/
def startsWithList : List Char → List Char → Bool
  | [], _ => true
  | _ :: _, [] => false
  | p :: ps, c :: cs => p == c && startsWithList ps cs

/-- Does `haystack` contain `pat` as a contiguous sublist
(the JavaScript `String.prototype.includes`)? -/
def listIncludes : List Char → List Char → Bool
  | haystack, pat =>
    match haystack with
    | [] => startsWithList pat []
    | c :: rest => startsWithList pat (c :: rest) || listIncludes rest pat

/-- `s.includes(pat)`. -/
def strIncludes (s pat : String) : Bool :=
  listIncludes s.data pat.data

/-- `normalizeName` (src/index.mjs line 138): trim surrounding whitespace,
then lowercase. -/
def normalizeName (name : String) : String :=
  jsToLowerStr (jsTrim name)

/-! ### The `date-time` format

Modelled from the dependency `ajv-formats` (registered by `addFormats(ajv)`
in src/index.mjs line 11): a date-time is a full date `YYYY-MM-DD`
(month 1..12, day within the month, February 29 in leap years), one
separator character (`t`, `T` or whitespace), and a full time
`hh:mm:ss` with optional fractional seconds and a mandatory timezone
(`z`, `Z`, or a `+`/`-` offset), allowing the leap second `23:59:60`. -/

/-- Gregorian leap-year test. -/
def isLeapYear (y : Nat) : Bool :=
  (y % 4 == 0 && y % 100 != 0) || y % 400 == 0

/-- Day count of month `m` (1-based). -/
def daysInMonth (leap : Bool) (m : Nat) : Nat :=
  match m with
  | 1 => 31 | 2 => if leap then 29 else 28 | 3 => 31 | 4 => 30
  | 5 => 31 | 6 => 30 | 7 => 31 | 8 => 31 | 9 => 30 | 10 => 31
  | 11 => 30 | 12 => 31
  | _ => 0

/-- Decimal value of a digit list (most significant first). -/
def digitsToNat (cs : List Char) : Nat :=
  cs.foldl (fun acc c => acc * 10 + (c.toNat - 48)) 0

/-- Read exactly `n` decimal digits from the front of `cs`. -/
def splitDigits (n : Nat) (cs : List Char) : Option (Nat × List Char) :=
  let pre := cs.take n
  if pre.length == n && pre.all Char.isDigit then
    some (digitsToNat pre, cs.drop n)
  else
    none

/-- Consume an optional fractional-seconds part `.d+`. -/
def stripFrac : List Char → Option (List Char)
  | '.' :: rest =>
      if (rest.takeWhile Char.isDigit).isEmpty then none
      else some (rest.dropWhile Char.isDigit)
  | cs => some cs

/-- Check a timezone suffix: `z`/`Z`, or `+`/`-` then `hh`, `hhmm` or `hh:mm`. -/
def checkTz : List Char → Bool
  | ['z'] => true
  | ['Z'] => true
  | c :: rest =>
      (c == '+' || c == '-') &&
      (match splitDigits 2 rest with
       | none => false
       | some (_, rem) =>
         match rem with
         | [] => true
         | ':' :: r2 =>
             (match splitDigits 2 r2 with
              | some (_, []) => true
              | _ => false)
         | r2 =>
             (match splitDigits 2 r2 with
              | some (_, []) => true
              | _ => false))
  | [] => false

/-- Check the time part `hh:mm:ss(.d+)?<tz>` with range constraints. -/
def checkTimePart (cs : List Char) : Bool :=
  match splitDigits 2 cs with
  | some (h, ':' :: r1) =>
      (match splitDigits 2 r1 with
       | some (mi, ':' :: r2) =>
           (match splitDigits 2 r2 with
            | some (s, r3) =>
                (match stripFrac r3 with
                 | some r4 => checkTz r4
                 | none => false) &&
                ((h ≤ 23 && mi ≤ 59 && s ≤ 59) ||
                 (h == 23 && mi == 59 && s == 60))
            | none => false)
       | _ => false)
  | _ => false

/-- Check the date part `YYYY-MM-DD` with calendar range constraints. -/
def checkDatePart (cs : List Char) : Bool :=
  match splitDigits 4 cs with
  | some (y, '-' :: r1) =>
      (match splitDigits 2 r1 with
       | some (mo, '-' :: r2) =>
           (match splitDigits 2 r2 with
            | some (d, []) =>
                1 ≤ mo && mo ≤ 12 && 1 ≤ d && d ≤ daysInMonth (isLeapYear y) mo
            | _ => false)
       | _ => false)
  | _ => false

/-- Is `c` a date/time separator (`/t|\s/i`)? -/
def isDtSep (c : Char) : Bool :=
  c == 't' || c == 'T' || c.isWhitespace

/-- The `date-time` format check: date part, exactly one separator, time
part, and no further separator characters. -/
def isDateTime (s : String) : Bool :=
  let cs := s.data
  let pre := cs.takeWhile (fun c => !(isDtSep c))
  match cs.dropWhile (fun c => !(isDtSep c)) with
  | _ :: post => !(post.any isDtSep) && checkDatePart pre && checkTimePart post
  | [] => false

/-! ### The two ajv schemas (src/index.mjs lines 34-132)

Each schema property is an executable checker `Json → Bool`; a closed
object schema accepts an object when every required key is present and
every present key has a checker that accepts its value (`additionalProperties:
false` means an unknown key has no checker and is a hard failure).  `oneOf`
with two alternatives requires exactly one alternative to accept. -/

/-- `{ type: "string" }`. -/
def isStringJ : Json → Bool
  | .str _ => true
  | _ => false

/-- `{ type: "array", items: { type: "string" } }`. -/
def isStrArr : Json → Bool
  | .arr elems => elems.all isStringJ
  | _ => false

/-- `{ type: "object", additionalProperties: true }`. -/
def isObjAny : Json → Bool
  | .obj _ => true
  | _ => false

/-- `{ type: "string", enum: values }` (all enum values are strings). -/
def enumStr (values : List String) : Json → Bool
  | .str s => values.contains s
  | _ => false

/-- `oneOf` over two subschemas: exactly one must accept. -/
def oneOfTwo (a b : Json → Bool) (j : Json) : Bool :=
  (a j && !(b j)) || (!(a j) && b j)

/-- Generic closed-object validation: every required key present, every
present key known and accepted by its checker. -/
def validObjB (table : List (String × (Json → Bool))) (required : List String)
    (fields : List (String × Json)) : Bool :=
  required.all (fun k => fields.any (fun kv => kv.1 == k)) &&
  fields.all (fun kv =>
    match List.lookup kv.1 table with
    | some chk => chk kv.2
    | none => false)

/-- The multilingual name/description object: English required,
Chinese/Spanish optional, closed. -/
def mlTable : List (String × (Json → Bool)) :=
  [("English", isStringJ), ("Chinese", isStringJ), ("Spanish", isStringJ)]

/-- Checker for the multilingual object branch of `Name`/`Description`. -/
def isMultilingual : Json → Bool
  | .obj fields => validObjB mlTable ["English"] fields
  | _ => false

/-- The `Name`/`Description` subschema: `oneOf` [string, multilingual]. -/
def strOrMultilingual : Json → Bool :=
  oneOfTwo isStringJ isMultilingual

/-- The `TCMInformation` subschema: Functions required, closed. -/
def tcmTable : List (String × (Json → Bool)) :=
  [("Functions", isStrArr), ("HerbalFormulations", isStrArr),
   ("Meridians", isStrArr)]

/-- Checker for `TCMInformation`. -/
def isTCMInfo : Json → Bool
  | .obj fields => validObjB tcmTable ["Functions"] fields
  | _ => false

/-- Properties of the input schema (src/index.mjs lines 34-115), in source
order. -/
def inputTable : List (String × (Json → Bool)) :=
  [("ItemType", enumStr ["ingredient", "nutrient"]),
   ("Name", strOrMultilingual),
   ("AlternateNames", isStrArr),
   ("Description", strOrMultilingual),
   ("YinYangClassification",
     enumStr ["Yin (Cold)", "Yin (Cool)", "Neutral", "Yang (Warm)", "Yang (Hot)"]),
   ("FiveElements", isStringJ),
   ("Category", isStringJ),
   ("FlavorProfile", isStrArr),
   ("MedicinalProperties", isStrArr),
   ("CommonCulinaryUses", isStrArr),
   ("OriginRegion", isStringJ),
   ("SeasonalAvailability", isStringJ),
   ("NutritionalInformation", isObjAny),
   ("AllergenInformation", isStringJ),
   ("PreparationTips", isStrArr),
   ("DietaryRestrictions", isStrArr),
   ("SubstituteIngredients", isStrArr),
   ("StorageMethods", isObjAny),
   ("CulinaryTechniques", isStrArr),
   ("CulturalSignificance", isObjAny),
   ("HistoricalUsage", isObjAny),
   ("EnvironmentalImpact", isObjAny),
   ("TCMInformation", isTCMInfo),
   ("Type", enumStr ["vitamin", "mineral", "other"]),
   ("Functions", isStrArr),
   ("Sources", isStrArr),
   ("RecommendedDailyIntake", isStringJ),
   ("DeficiencySymptoms", isStrArr),
   ("ExcessSymptoms", isStrArr),
   ("TopFoodSources", isStrArr)]

/-- `{ type: "string", format: "date-time" }`. -/
def isDateTimeJ : Json → Bool
  | .str s => isDateTime s
  | _ => false

/-- Properties of the storage schema: the input properties plus the three
system fields (src/index.mjs lines 118-128). -/
def storageTable : List (String × (Json → Bool)) :=
  inputTable ++
  [("ItemID", isStringJ), ("DateAdded", isDateTimeJ), ("NameLowercase", isStringJ)]

/-- `validateInput` (compiled input schema, src/index.mjs line 131):
required ItemType and Name, closed property set. -/
def validateInput : Json → Bool
  | .obj fields => validObjB inputTable ["ItemType", "Name"] fields
  | _ => false

/-- `validateStorage` (compiled storage schema, src/index.mjs line 132):
the input requirements plus the three required system fields. -/
def validateStorage : Json → Bool
  | .obj fields =>
      validObjB storageTable
        ["ItemType", "Name", "ItemID", "DateAdded", "NameLowercase"] fields
  | _ => false

/-- The three system-field assignments of src/index.mjs lines 488-490:
`itemData.ItemID = randomUUID(); itemData.DateAdded = new Date().toISOString();
itemData.NameLowercase = normalizedSearchName;`. -/
def assignSystemFields (j : Json) (uuid isoNow nameLower : String) : Json :=
  setField (setField (setField j "ItemID" (.str uuid))
    "DateAdded" (.str isoNow)) "NameLowercase" (.str nameLower)

/-! ### Consumability classifier (src/index.mjs lines 140-182) -/

/-- The fixed denylist `nonConsumableCategories`, verbatim from the source. -/
def nonConsumableCategories : List String :=
  ["poison", "chemical", "non-food", "cleaning agent", "toxic substance",
   "metal", "plastic", "drug", "medicine", "insecticide", "herbicide",
   "fungicide", "fertilizer", "petroleum", "non-edible", "radioactive",
   "synthetic compound", "material", "alloy", "paint", "solvent",
   "detergent", "adhesive", "lubricant", "pesticide", "disinfectant",
   "explosive", "gas", "element", "rock", "gemstone", "crystal"]

/-- Extraction of `itemData.Category || ""`: empty string when absent (a
present non-string Category is unreachable in the handler, which validates
the record first; the model also maps it to the empty string). -/
def categoryOf (j : Json) : String :=
  match getField j "Category" with
  | some (.str s) => s
  | _ => ""

/-- The guard `itemData.ItemType !== "ingredient"` of src/index.mjs line
141, negated: the property is present and is exactly the string
"ingredient". -/
def isIngredientType : Option Json → Bool
  | some (.str s) => s == "ingredient"
  | _ => false

/-- `isConsumableIngredient`: anything whose ItemType is not the string
"ingredient" is consumable; an ingredient is consumable unless its
lowercased category contains some denylist term as a substring. -/
def isConsumableIngredient (itemData : Json) : Bool :=
  if isIngredientType (getField itemData "ItemType") then
    !(nonConsumableCategories.any (fun cat =>
        strIncludes (jsToLowerStr (categoryOf itemData)) cat))
  else true

/-! ### Cache (src/index.mjs lines 184-201) -/

/-- One cache slot: the stored item and its insertion timestamp. -/
structure CacheEntry where
  data : Json
  timestamp : Int

/-- The module-level `cache` object, as an insertion-ordered association
list keyed by the fingerprint string. -/
abbrev Cache := List (String × CacheEntry)

/-- `CACHE_TTL = 60 * 60 * 1000` milliseconds. -/
def CACHE_TTL : Int := 60 * 60 * 1000

/-- `getCachedResponse`: the entry's data if present and younger than the
TTL, otherwise `null`; the cache itself is not modified (the function's
type has no cache output). -/
def getCachedResponse (cache : Cache) (key : String) (now : Int) : Option Json :=
  match List.lookup key cache with
  | some cached =>
      if now - cached.timestamp < CACHE_TTL then some cached.data else none
  | none => none

/-- JavaScript keyed assignment on the cache object: update the first
binding or append. -/
def setCacheList : Cache → String → CacheEntry → Cache
  | [], k, e => [(k, e)]
  | (k', e') :: rest, k, e =>
      if k' == k then (k', e) :: rest else (k', e') :: setCacheList rest k e

/-- `setCachedResponse`: unconditionally store or overwrite the entry with
the current timestamp. -/
def setCachedResponse (cache : Cache) (key : String) (data : Json) (now : Int) :
    Cache :=
  setCacheList cache key ⟨data, now⟩


/-! ### The handler (src/index.mjs lines 204-556)

The handler is embedded as a pure function.  Every external interaction is
an input: the DynamoDB query outcome (`storeResult`, a thrown error landing
in the outermost catch), the OpenAI call outcome (`openAIResult`, a thrown
or rejected call landing in the 502 branch), the DynamoDB put outcome
(`putResult`), the generated UUID, the ISO timestamp and the clock.
`marshall`/`unmarshall` are inverse encodings and are modelled as the
identity.  The result carries the response, the cache after the request,
and a trace of the externally visible steps in execution order. -/

/-- A response body: `JSON.stringify({error})` or
`JSON.stringify({found, item})`. -/
inductive RBody where
  | err (msg : String) : RBody
  | item (found : Bool) (itemData : Json) : RBody

/-- An HTTP-like response. -/
structure Response where
  statusCode : Nat
  headers : List (String × String)
  body : RBody

/-- The permissive cross-origin headers attached on every branch. -/
def corsHeaders : List (String × String) :=
  [("Access-Control-Allow-Origin", "*"),
   ("Access-Control-Allow-Credentials", "true")]

/-- Environment of one request: the query parameter and the outcome of
every external call. -/
structure Env where
  searchName : Option String
  cache : Cache
  now : Int
  storeResult : Except Unit (List Json)
  openAIResult : Except Unit String
  putResult : Except Unit Unit
  uuid : String
  isoNow : String

/-- Externally visible steps, recorded in execution order. -/
inductive Event where
  | cacheGetEv (key : String) : Event
  | storeQueryEv (key : String) : Event
  | generateCallEv : Event
  | parseEv (jsonString : String) : Event
  | validateInputEv (itemData : Json) : Event
  | consumabilityEv (itemData : Json) : Event
  | validateStorageEv (itemData : Json) : Event
  | putItemEv (itemData : Json) : Event
  | cacheSetEv (key : String) (itemData : Json) : Event

/-- Result of one request. -/
structure HResult where
  response : Response
  cache : Cache
  trace : List Event

/-- JavaScript falsiness of `queryParams && queryParams.name`: missing
parameters object, missing parameter, or empty string. -/
def jsFalsyName : Option String → Bool
  | none => true
  | some s => s == ""

/-- The 400 message, verbatim from the source. -/
def m400 : String := "Search name is required."

/-- The interpolated 404 message (src/index.mjs lines 423 and 482). -/
def m404 (searchName : String) : String :=
  searchName ++ " is not a valid consumable food item or nutrient."

/-- The 502 message (OpenAI call failed). -/
def m502 : String := "Failed to retrieve data from external service."

/-- The parse-failure 500 message. -/
def mParse : String := "Failed to parse data from external service."

/-- The input-schema 500 message. -/
def mInput : String := "Invalid data format received from external service."

/-- The storage-schema 500 message. -/
def mStorage : String := "Invalid data format after adding system fields."

/-- The persistence-failure 500 message. -/
def mSave : String := "Failed to save item data."

/-- The outermost-catch 500 message. -/
def mInternal : String := "Internal server error."

/-- The literal marker searched for in the lowercased reply
(src/index.mjs line 412). -/
def errorMarker : String := "\"error\":"

/-- JavaScript `s.substring(a, b)`: swaps the endpoints when `a > b` and
takes the span in between. -/
def jsSubstring (s : String) (a b : Nat) : String :=
  let lo := min a b
  let hi := max a b
  String.mk ((s.data.drop lo).take (hi - lo))

/-- Index of the last occurrence of `c`, if any. -/
def lastIdxOf (cs : List Char) (c : Char) : Option Nat :=
  match cs.reverse.findIdx? (fun x => x == c) with
  | some i => some (cs.length - 1 - i)
  | none => none

/-- The sanitization of src/index.mjs lines 432-437: locate the first `{`
and the last `}`; if either is missing the parse attempt fails, otherwise
the enclosed span is handed to `JSON.parse`. -/
def extractJsonSpan (content : String) : Option String :=
  match content.data.findIdx? (fun x => x == '{'), lastIdxOf content.data '}' with
  | some jsonStart, some jsonEnd =>
      some (jsSubstring content jsonStart (jsonEnd + 1))
  | _, _ => none

/-- Validation, system-field assignment, storage validation, persistence
and cache write (src/index.mjs lines 453-544). -/
def validateStage (env : Env) (searchName normalizedSearchName cacheKey : String)
    (itemData : Json) (tr : List Event) : HResult :=
  if validateInput itemData then
    if isConsumableIngredient itemData then
      let itemData2 :=
        assignSystemFields itemData env.uuid env.isoNow normalizedSearchName
      if validateStorage itemData2 then
        match env.putResult with
        | .error _ =>
            ⟨⟨500, corsHeaders, .err mSave⟩, env.cache,
             tr ++ [.validateInputEv itemData, .consumabilityEv itemData,
                    .validateStorageEv itemData2, .putItemEv itemData2]⟩
        | .ok _ =>
            ⟨⟨200, corsHeaders, .item false itemData2⟩,
             setCachedResponse env.cache cacheKey itemData2 env.now,
             tr ++ [.validateInputEv itemData, .consumabilityEv itemData,
                    .validateStorageEv itemData2, .putItemEv itemData2,
                    .cacheSetEv cacheKey itemData2]⟩
      else
        ⟨⟨500, corsHeaders, .err mStorage⟩, env.cache,
         tr ++ [.validateInputEv itemData, .consumabilityEv itemData,
                .validateStorageEv itemData2]⟩
    else
      ⟨⟨404, corsHeaders, .err (m404 searchName)⟩, env.cache,
       tr ++ [.validateInputEv itemData, .consumabilityEv itemData]⟩
  else
    ⟨⟨500, corsHeaders, .err mInput⟩, env.cache,
     tr ++ [.validateInputEv itemData]⟩

/-- Error-marker check, JSON-span extraction and parse
(src/index.mjs lines 411-451); `content` is the trimmed reply. -/
def parseStage (jsonParse : String → Option Json) (env : Env)
    (searchName normalizedSearchName cacheKey : String) (content : String)
    (tr : List Event) : HResult :=
  if strIncludes (jsToLowerStr content) errorMarker then
    ⟨⟨404, corsHeaders, .err (m404 searchName)⟩, env.cache, tr⟩
  else
    match extractJsonSpan content with
    | none => ⟨⟨500, corsHeaders, .err mParse⟩, env.cache, tr⟩
    | some jsonString =>
      match jsonParse jsonString with
      | none =>
          ⟨⟨500, corsHeaders, .err mParse⟩, env.cache,
           tr ++ [.parseEv jsonString]⟩
      | some itemData =>
          validateStage env searchName normalizedSearchName cacheKey itemData
            (tr ++ [.parseEv jsonString])

/-- The OpenAI call (src/index.mjs lines 280-409): a throw or rejection is
surfaced as 502, otherwise the reply content is trimmed and handed on. -/
def generateStage (jsonParse : String → Option Json) (env : Env)
    (searchName normalizedSearchName cacheKey : String) (tr : List Event) :
    HResult :=
  match env.openAIResult with
  | .error _ =>
      ⟨⟨502, corsHeaders, .err m502⟩, env.cache, tr ++ [.generateCallEv]⟩
  | .ok raw =>
      parseStage jsonParse env searchName normalizedSearchName cacheKey
        (jsTrim raw) (tr ++ [.generateCallEv])

/-- The DynamoDB query (src/index.mjs lines 244-276): a throw lands in the
outermost catch (500 internal error); a non-empty result returns the first
item and caches it; an empty result proceeds to generation. -/
def storeStage (jsonParse : String → Option Json) (env : Env)
    (searchName normalizedSearchName cacheKey : String) (tr : List Event) :
    HResult :=
  match env.storeResult with
  | .error _ =>
      ⟨⟨500, corsHeaders, .err mInternal⟩, env.cache,
       tr ++ [.storeQueryEv normalizedSearchName]⟩
  | .ok items =>
    match items with
    | itemData :: _ =>
        ⟨⟨200, corsHeaders, .item true itemData⟩,
         setCachedResponse env.cache cacheKey itemData env.now,
         tr ++ [.storeQueryEv normalizedSearchName,
                .cacheSetEv cacheKey itemData]⟩
    | [] =>
        generateStage jsonParse env searchName normalizedSearchName cacheKey
          (tr ++ [.storeQueryEv normalizedSearchName])

/-- The handler (src/index.mjs lines 204-556), parameterized by the SHA-256
hex digest and the JSON text parser. -/
def handler (sha256hex : String → String) (jsonParse : String → Option Json)
    (env : Env) : HResult :=
  if jsFalsyName env.searchName then
    ⟨⟨400, corsHeaders, .err m400⟩, env.cache, []⟩
  else
    let searchName := env.searchName.getD ""
    let normalizedSearchName := normalizeName searchName
    let cacheKey := sha256hex normalizedSearchName
    match getCachedResponse env.cache cacheKey env.now with
    | some cachedData =>
        if jsTruthy cachedData then
          ⟨⟨200, corsHeaders, .item true cachedData⟩, env.cache,
           [.cacheGetEv cacheKey]⟩
        else
          storeStage jsonParse env searchName normalizedSearchName cacheKey
            [.cacheGetEv cacheKey]
    | none =>
        storeStage jsonParse env searchName normalizedSearchName cacheKey
          [.cacheGetEv cacheKey]

/-- The combined cache probe of src/index.mjs lines 230-242: the cached
data when present, fresh and truthy. -/
def cacheHitData (cache : Cache) (key : String) (now : Int) : Option Json :=
  match getCachedResponse cache key now with
  | some d => if jsTruthy d then some d else none
  | none => none

/-! ### Helper lemmas on association lists -/

/-- A successful lookup in the left part of an appended table persists. -/
theorem lookup_append_of_some {β : Type} {k : String} {v : β}
    {l1 l2 : List (String × β)} (h : List.lookup k l1 = some v) :
    List.lookup k (l1 ++ l2) = some v := by
  induction l1 with
  | nil => simp [List.lookup] at h
  | cons kv rest ih =>
      obtain ⟨a, b⟩ := kv
      simp only [List.lookup, List.cons_append] at h ⊢
      cases hk : (k == a) with
      | true => rw [hk] at h; simpa [hk] using h
      | false => rw [hk] at h; simpa [hk] using ih h

/-- Lookup of a key that is not among the first components fails. -/
theorem lookup_eq_none_of_not_mem {β : Type} (k : String)
    (l : List (String × β)) (h : k ∉ l.map Prod.fst) :
    List.lookup k l = none := by
  induction l with
  | nil => rfl
  | cons kv rest ih =>
      obtain ⟨a, b⟩ := kv
      simp only [List.map_cons, List.mem_cons] at h
      push_neg at h
      simp only [List.lookup]
      rw [show (k == a) = false from beq_eq_false_iff_ne.mpr h.1]
      exact ih h.2


/-- Writing a key makes it readable with the written entry. -/
theorem setCacheList_lookup_self (cache : Cache) (key : String) (e : CacheEntry) :
    List.lookup key (setCacheList cache key e) = some e := by
  induction cache with
  | nil => simp [setCacheList, List.lookup]
  | cons kv rest ih =>
      obtain ⟨a, e'⟩ := kv
      by_cases hk : a = key
      · subst hk
        simp [setCacheList, List.lookup]
      · have hk' : (a == key) = false := beq_eq_false_iff_ne.mpr hk
        have hk'' : (key == a) = false := beq_eq_false_iff_ne.mpr (Ne.symm hk)
        simpa [setCacheList, hk', List.lookup, hk''] using ih

/-- Writing a key leaves every other key's binding unchanged. -/
theorem setCacheList_lookup_other (cache : Cache) (key k2 : String)
    (e : CacheEntry) (h : k2 ≠ key) :
    List.lookup k2 (setCacheList cache key e) = List.lookup k2 cache := by
  induction cache with
  | nil => simp [setCacheList, List.lookup, beq_eq_false_iff_ne.mpr h]
  | cons kv rest ih =>
      obtain ⟨a, e'⟩ := kv
      by_cases hk : a = key
      · subst hk
        simp [setCacheList, List.lookup, beq_eq_false_iff_ne.mpr h]
      · have hk' : (a == key) = false := beq_eq_false_iff_ne.mpr hk
        cases hka : (k2 == a) with
        | true => simp [setCacheList, hk', List.lookup, hka]
        | false => simpa [setCacheList, hk', List.lookup, hka] using ih

/-! ### Claim C6: the cache contract -/

/-- Claim C6: `getCachedResponse` returns the stored item exactly when an
entry for the key is present and strictly younger than the 3600000 ms TTL;
a stale entry makes it report absent (the function reads the cache without
modifying it — its type has no cache output, so no purge can occur); and
`setCachedResponse` unconditionally stores or overwrites the entry for the
key with the current timestamp, leaving every other key's binding
unchanged. -/
theorem cache_contract (cache : Cache) (key : String) (now : Int) (d : Json) :
    (getCachedResponse cache key now = some d ↔
      ∃ e, List.lookup key cache = some e ∧ e.data = d ∧
        now - e.timestamp < CACHE_TTL) ∧
    (∀ e, List.lookup key cache = some e → ¬ now - e.timestamp < CACHE_TTL →
      getCachedResponse cache key now = none) ∧
    (List.lookup key (setCachedResponse cache key d now) = some ⟨d, now⟩) ∧
    (∀ k2, k2 ≠ key →
      List.lookup k2 (setCachedResponse cache key d now) =
        List.lookup k2 cache) := by
  refine ⟨?_, ?_, ?_, ?_⟩
  · unfold getCachedResponse
    cases h : List.lookup key cache with
    | none => simp
    | some e =>
        constructor
        · intro hsome
          have hsome' :
              (if now - e.timestamp < CACHE_TTL then some e.data else none) =
                some d := hsome
          by_cases hfresh : now - e.timestamp < CACHE_TTL
          · rw [if_pos hfresh] at hsome'
            exact ⟨e, rfl, Option.some.inj hsome', hfresh⟩
          · rw [if_neg hfresh] at hsome'
            exact absurd hsome' (by simp)
        · rintro ⟨e', he', hd, hfresh⟩
          obtain rfl : e = e' := Option.some.inj he'
          show (if now - e.timestamp < CACHE_TTL then some e.data else none) =
            some d
          rw [if_pos hfresh, hd]
  · intro e he hstale
    unfold getCachedResponse
    rw [he]
    exact if_neg hstale
  · exact setCacheList_lookup_self cache key ⟨d, now⟩
  · exact fun k2 hk2 => setCacheList_lookup_other cache key k2 ⟨d, now⟩ hk2

/-- Witness for C6: a one-hour-old entry is reported absent at
`now = 3600000`. -/
theorem cache_contract_witness :
    getCachedResponse [("k", ⟨Json.null, 0⟩)] "k" 3600000 = none :=
  (cache_contract [("k", ⟨Json.null, 0⟩)] "k" 3600000 Json.null).2.1
    ⟨Json.null, 0⟩ rfl (by decide)

/-! ### Claim C7: the pre-storage schema is closed -/

/-- Claim C7: pre-storage validation rejects every object that carries a
top-level key outside the known property set, regardless of the other
fields (extra keys are a hard failure, never silently dropped). -/
theorem inputSchema_closed (fields : List (String × Json)) (k : String)
    (v : Json) (hmem : (k, v) ∈ fields)
    (hk : k ∉ inputTable.map Prod.fst) :
    validateInput (.obj fields) = false := by
  cases hval : validateInput (.obj fields) with
  | false => rfl
  | true =>
      exfalso
      have hval' : validObjB inputTable ["ItemType", "Name"] fields = true := hval
      unfold validObjB at hval'
      rw [Bool.and_eq_true] at hval'
      have hall := List.all_eq_true.mp hval'.2 (k, v) hmem
      rw [lookup_eq_none_of_not_mem k inputTable hk] at hall
      exact absurd hall (by simp)

/-- Witness for C7: a record with all required fields present and correct
plus one unknown key is rejected, while the same record without the
unknown key is accepted. -/
theorem inputSchema_closed_witness :
    validateInput (.obj [("ItemType", Json.str "nutrient"),
      ("Name", Json.str "Iron"), ("Bogus", Json.str "x")]) = false ∧
    validateInput (.obj [("ItemType", Json.str "nutrient"),
      ("Name", Json.str "Iron")]) = true :=
  ⟨inputSchema_closed _ "Bogus" (Json.str "x") (by simp) (by decide), rfl⟩

/-! ### Claim C2: the Name shape is not tied to the ItemType variant

The pre-storage schema validates `Name` with `oneOf` [string, multilingual
object] independently of the `ItemType` discriminator, so a nutrient record
with an object-shaped Name (and an ingredient record with a string Name)
also passes. -/

/-- A nutrient-typed record whose Name is a multilingual object. -/
def c2nutrientObjName : Json :=
  .obj [("ItemType", .str "nutrient"),
        ("Name", .obj [("English", .str "Iron")])]

/-- Counterexample to C2 as stated: a record with ItemType "nutrient" whose
Name is not a string passes pre-storage validation, so validation does not
pass "only if Name is a string" for the nutrient variant. -/
theorem validateInput_name_shape_cex :
    validateInput c2nutrientObjName = true ∧
    getField c2nutrientObjName "ItemType" = some (.str "nutrient") ∧
    getField c2nutrientObjName "Name" =
      some (.obj [("English", .str "Iron")]) ∧
    isStringJ (.obj [("English", .str "Iron")]) = false :=
  ⟨rfl, rfl, rfl, rfl⟩

/-- Claim C2 (amended): pre-storage validation constrains the Name shape
independently of the ItemType variant — for either variant it passes only
if Name is a string or a multilingual object with the English field
mandatory (Chinese/Spanish optional); in particular a nutrient record with
an object Name and an ingredient record with a string Name both pass. -/
theorem validateInput_name_shape_amended :
    (∀ fields v, validateInput (.obj fields) = true → ("Name", v) ∈ fields →
      strOrMultilingual v = true) ∧
    validateInput c2nutrientObjName = true ∧
    validateInput (.obj [("ItemType", .str "ingredient"),
      ("Name", .str "Ginger")]) = true := by
  refine ⟨?_, rfl, rfl⟩
  intro fields v hval hmem
  have hval' : validObjB inputTable ["ItemType", "Name"] fields = true := hval
  unfold validObjB at hval'
  rw [Bool.and_eq_true] at hval'
  have hall := List.all_eq_true.mp hval'.2 ("Name", v) hmem
  rw [show List.lookup "Name" inputTable = some strOrMultilingual from rfl]
    at hall
  exact hall

/-- Witness for the amended C2. -/
theorem validateInput_name_shape_amended_witness :
    strOrMultilingual (Json.str "Iron") = true :=
  validateInput_name_shape_amended.1
    [("ItemType", Json.str "nutrient"), ("Name", Json.str "Iron")]
    (Json.str "Iron") rfl (by simp)

/-! ### Claim C4: the consumability classifier -/

/-- Claim C4: the classifier accepts every record whose ItemType is the
string "nutrient" regardless of any other field; for a record whose
ItemType is "ingredient" (and whose Category, as in every record reaching
the classifier in the handler, is absent or a string) it reads the
Category (empty string when absent), lowercases it, and rejects exactly
when some denylist term occurs as a substring; in particular category
"plastic container" is rejected and "root vegetable" is accepted. -/
theorem isConsumable_spec :
    (∀ j, getField j "ItemType" = some (.str "nutrient") →
      isConsumableIngredient j = true) ∧
    (∀ j, getField j "ItemType" = some (.str "ingredient") →
      (getField j "Category" = none ∨
        ∃ s, getField j "Category" = some (.str s)) →
      (isConsumableIngredient j = false ↔
        nonConsumableCategories.any (fun cat =>
          strIncludes (jsToLowerStr (categoryOf j)) cat) = true)) ∧
    isConsumableIngredient (Json.obj [("ItemType", .str "ingredient"),
      ("Category", .str "plastic container")]) = false ∧
    isConsumableIngredient (Json.obj [("ItemType", .str "ingredient"),
      ("Category", .str "root vegetable")]) = true := by
  refine ⟨?_, ?_, rfl, rfl⟩
  · intro j h
    unfold isConsumableIngredient
    rw [h]
    rfl
  · intro j h _
    unfold isConsumableIngredient
    rw [h]
    show (!(nonConsumableCategories.any fun cat =>
      strIncludes (jsToLowerStr (categoryOf j)) cat)) = false ↔ _
    cases hx : nonConsumableCategories.any (fun cat =>
      strIncludes (jsToLowerStr (categoryOf j)) cat) <;> simp [hx]

/-- Witness for C4: a compound category containing the denylist term
"chemical" is rejected. -/
theorem isConsumable_spec_witness :
    isConsumableIngredient (Json.obj [("ItemType", Json.str "ingredient"),
      ("Category", Json.str "industrial chemical compound")]) = false :=
  (isConsumable_spec.2.1
    (Json.obj [("ItemType", Json.str "ingredient"),
      ("Category", Json.str "industrial chemical compound")])
    rfl (Or.inr ⟨"industrial chemical compound", rfl⟩)).mpr rfl

/-! ### Claim C3: the two validation stages round-trip -/

/-- Every binding of a record passing a closed-table validation has a
checker in the table that accepts its value. -/
theorem key_has_checker_of_valid {table : List (String × (Json → Bool))}
    {req : List String} {fields : List (String × Json)}
    (h : validObjB table req fields = true) {kv : String × Json}
    (hmem : kv ∈ fields) :
    ∃ chk, List.lookup kv.1 table = some chk ∧ chk kv.2 = true := by
  unfold validObjB at h
  rw [Bool.and_eq_true] at h
  have hall := List.all_eq_true.mp h.2 kv hmem
  cases hl : List.lookup kv.1 table with
  | none => rw [hl] at hall; exact absurd hall (by simp)
  | some chk => rw [hl] at hall; exact ⟨chk, rfl, hall⟩

/-- A record passing input validation has no binding whose key is unknown
to the input table. -/
theorem input_valid_no_key (fields : List (String × Json))
    (h : validateInput (.obj fields) = true) (k : String)
    (hk : List.lookup k inputTable = none) :
    fields.any (fun kv => kv.1 == k) = false := by
  cases ha : fields.any (fun kv => kv.1 == k) with
  | false => rfl
  | true =>
      exfalso
      obtain ⟨kv, hmem, hkv⟩ := List.any_eq_true.mp ha
      have h' : validObjB inputTable ["ItemType", "Name"] fields = true := h
      obtain ⟨chk, hl, -⟩ := key_has_checker_of_valid h' hmem
      rw [eq_of_beq hkv, hk] at hl
      exact absurd hl (by simp)

/-- Assigning a key absent from the record appends the binding. -/
theorem setFieldList_append (fields : List (String × Json)) (k : String)
    (v : Json) (h : fields.any (fun kv => kv.1 == k) = false) :
    setFieldList fields k v = fields ++ [(k, v)] := by
  induction fields with
  | nil => rfl
  | cons kv rest ih =>
      obtain ⟨a, b⟩ := kv
      rw [List.any_cons] at h
      rw [Bool.or_eq_false_iff] at h
      unfold setFieldList
      rw [h.1]
      simp only [Bool.false_eq_true, if_false, List.cons_append]
      rw [ih h.2]

/-- Claim C3: a record passing pre-storage validation, once the three
system fields are assigned (a string identifier, a valid ISO-8601
timestamp and the normalized-name string), always passes post-storage
validation; conversely a record lacking any of the three system fields
fails post-storage validation. -/
theorem validate_roundtrip :
    (∀ fields uuid isoNow nameLower,
      validateInput (.obj fields) = true → isDateTime isoNow = true →
      validateStorage
        (assignSystemFields (.obj fields) uuid isoNow nameLower) = true) ∧
    (∀ j, hasField j "ItemID" = false ∨ hasField j "DateAdded" = false ∨
        hasField j "NameLowercase" = false →
      validateStorage j = false) := by
  constructor
  · intro fields uuid isoNow nameLower hin hdt
    have hin' : validObjB inputTable ["ItemType", "Name"] fields = true := hin
    unfold validObjB at hin'
    rw [Bool.and_eq_true] at hin'
    have hID : fields.any (fun kv => kv.1 == "ItemID") = false :=
      input_valid_no_key fields hin "ItemID" rfl
    have hDA : fields.any (fun kv => kv.1 == "DateAdded") = false :=
      input_valid_no_key fields hin "DateAdded" rfl
    have hNL : fields.any (fun kv => kv.1 == "NameLowercase") = false :=
      input_valid_no_key fields hin "NameLowercase" rfl
    have hDA1 : (fields ++ [("ItemID", Json.str uuid)]).any
        (fun kv => kv.1 == "DateAdded") = false := by
      rw [List.any_append, hDA]
      rfl
    have hNL2 : ((fields ++ [("ItemID", Json.str uuid)]) ++
        [("DateAdded", Json.str isoNow)]).any
        (fun kv => kv.1 == "NameLowercase") = false := by
      rw [List.any_append, List.any_append, hNL]
      rfl
    have e1 : setField (Json.obj fields) "ItemID" (Json.str uuid) =
        Json.obj (fields ++ [("ItemID", Json.str uuid)]) := by
      show Json.obj (setFieldList fields "ItemID" (Json.str uuid)) = _
      rw [setFieldList_append fields _ _ hID]
    have e2 : setField (Json.obj (fields ++ [("ItemID", Json.str uuid)]))
        "DateAdded" (Json.str isoNow) =
        Json.obj ((fields ++ [("ItemID", Json.str uuid)]) ++
          [("DateAdded", Json.str isoNow)]) := by
      show Json.obj (setFieldList _ "DateAdded" (Json.str isoNow)) = _
      rw [setFieldList_append _ _ _ hDA1]
    have e3 : setField (Json.obj ((fields ++ [("ItemID", Json.str uuid)]) ++
        [("DateAdded", Json.str isoNow)])) "NameLowercase"
        (Json.str nameLower) =
        Json.obj (((fields ++ [("ItemID", Json.str uuid)]) ++
          [("DateAdded", Json.str isoNow)]) ++
          [("NameLowercase", Json.str nameLower)]) := by
      show Json.obj (setFieldList _ "NameLowercase" (Json.str nameLower)) = _
      rw [setFieldList_append _ _ _ hNL2]
    have hassign : assignSystemFields (.obj fields) uuid isoNow nameLower =
        .obj (((fields ++ [("ItemID", Json.str uuid)]) ++
          [("DateAdded", Json.str isoNow)]) ++
          [("NameLowercase", Json.str nameLower)]) := by
      unfold assignSystemFields
      rw [e1, e2, e3]
    rw [hassign]
    show validObjB storageTable
      ["ItemType", "Name", "ItemID", "DateAdded", "NameLowercase"] _ = true
    unfold validObjB
    rw [Bool.and_eq_true]
    constructor
    · rw [List.all_eq_true]
      intro k hkmem
      simp only [List.mem_cons, List.not_mem_nil, or_false] at hkmem
      rcases hkmem with rfl | rfl | rfl | rfl | rfl
      · have hk := List.all_eq_true.mp hin'.1 "ItemType" (by simp)
        rw [List.any_append, List.any_append, List.any_append, hk]
        rfl
      · have hk := List.all_eq_true.mp hin'.1 "Name" (by simp)
        rw [List.any_append, List.any_append, List.any_append, hk]
        rfl
      · rw [List.any_append, List.any_append, List.any_append, hID]
        rfl
      · rw [List.any_append, List.any_append, List.any_append, hDA]
        rfl
      · rw [List.any_append, List.any_append, List.any_append, hNL]
        rfl
    · rw [List.all_eq_true]
      rintro kv hkv
      simp only [List.mem_append] at hkv
      rcases hkv with ((hkv | hkv) | hkv) | hkv
      · obtain ⟨chk, hl, hc⟩ :=
          @key_has_checker_of_valid inputTable ["ItemType", "Name"] fields
            (by
              unfold validObjB
              rw [Bool.and_eq_true]
              exact hin') kv hkv
        show (match List.lookup kv.1 storageTable with
          | some chk => chk kv.2
          | none => false) = true
        unfold storageTable
        rw [lookup_append_of_some hl]
        exact hc
      · simp only [List.mem_singleton] at hkv
        subst hkv
        rfl
      · simp only [List.mem_singleton] at hkv
        subst hkv
        show isDateTimeJ (Json.str isoNow) = true
        exact hdt
      · simp only [List.mem_singleton] at hkv
        subst hkv
        rfl
  · intro j h
    cases j with
    | obj fields =>
        cases hv : validateStorage (.obj fields) with
        | false => rfl
        | true =>
            exfalso
            have hv' : validObjB storageTable
              ["ItemType", "Name", "ItemID", "DateAdded", "NameLowercase"]
              fields = true := hv
            unfold validObjB at hv'
            rw [Bool.and_eq_true] at hv'
            rcases h with h | h | h
            · have hreq := List.all_eq_true.mp hv'.1 "ItemID" (by simp)
              have hno : fields.any (fun kv => kv.1 == "ItemID") = false := h
              rw [hno] at hreq
              exact absurd hreq (by simp)
            · have hreq := List.all_eq_true.mp hv'.1 "DateAdded" (by simp)
              have hno : fields.any (fun kv => kv.1 == "DateAdded") = false := h
              rw [hno] at hreq
              exact absurd hreq (by simp)
            · have hreq := List.all_eq_true.mp hv'.1 "NameLowercase" (by simp)
              have hno : fields.any (fun kv => kv.1 == "NameLowercase") =
                false := h
              rw [hno] at hreq
              exact absurd hreq (by simp)
    | null => rfl
    | bool b => rfl
    | num n => rfl
    | str s => rfl
    | arr elems => rfl

/-- Witness for C3: a concrete valid nutrient record, augmented with the
three system fields, passes storage validation; without them it fails. -/
theorem validate_roundtrip_witness :
    validateStorage (assignSystemFields
      (Json.obj [("ItemType", Json.str "nutrient"), ("Name", Json.str "Iron")])
      "0000-test-uuid" "2024-06-01T12:00:00.000Z" "iron") = true ∧
    validateStorage (Json.obj [("ItemType", Json.str "nutrient"),
      ("Name", Json.str "Iron")]) = false :=
  ⟨validate_roundtrip.1 _ "0000-test-uuid" "2024-06-01T12:00:00.000Z" "iron"
      rfl rfl,
   validate_roundtrip.2 _ (Or.inl rfl)⟩

/-! ### String lemmas: trimming, lowercasing and substring search -/

/-- ASCII lowercasing does not change whether a character is whitespace. -/
theorem isWhitespace_jsCharToLower (c : Char) :
    (jsCharToLower c).isWhitespace = c.isWhitespace := by
  unfold jsCharToLower
  split <;> rfl

/-- Left-trimming drops everything exactly when all characters are
whitespace. -/
theorem trimLeftChars_eq_nil_iff (cs : List Char) :
    trimLeftChars cs = [] ↔ ∀ c ∈ cs, c.isWhitespace = true := by
  induction cs with
  | nil => simp [trimLeftChars]
  | cons c rest ih =>
      cases hc : c.isWhitespace with
      | true => simp [trimLeftChars, hc, ih]
      | false => simp [trimLeftChars, hc]

/-- Left-trimming commutes with lowercasing. -/
theorem trimLeftChars_map_lower (cs : List Char) :
    trimLeftChars (cs.map jsCharToLower) = (trimLeftChars cs).map jsCharToLower := by
  induction cs with
  | nil => rfl
  | cons c rest ih =>
      cases hc : c.isWhitespace with
      | true =>
          simp [trimLeftChars, isWhitespace_jsCharToLower, hc, ih]
      | false =>
          simp [trimLeftChars, isWhitespace_jsCharToLower, hc]

/-- Left-trimming swallows an all-whitespace prefix. -/
theorem trimLeftChars_append_ws (ws l : List Char)
    (h : ∀ c ∈ ws, c.isWhitespace = true) :
    trimLeftChars (ws ++ l) = trimLeftChars l := by
  induction ws with
  | nil => rfl
  | cons c rest ih =>
      have hc : c.isWhitespace = true := h c (by simp)
      simp only [List.cons_append, trimLeftChars, hc, if_true]
      exact ih (fun c hm => h c (by simp [hm]))

/-- Left-trimming of a list with a non-whitespace residue distributes over
a right extension. -/
theorem trimLeftChars_append_of_ne_nil (t l : List Char)
    (h : trimLeftChars t ≠ []) :
    trimLeftChars (t ++ l) = trimLeftChars t ++ l := by
  induction t with
  | nil => exact absurd rfl h
  | cons c rest ih =>
      cases hc : c.isWhitespace with
      | true =>
          have h' : trimLeftChars rest ≠ [] := by
            simpa [trimLeftChars, hc] using h
          simp only [List.cons_append, trimLeftChars, hc, if_true]
          exact ih h'
      | false =>
          simp [trimLeftChars, hc]

/-- Trimming an all-whitespace list yields the empty list. -/
theorem trimChars_of_allWs (cs : List Char)
    (h : ∀ c ∈ cs, c.isWhitespace = true) : trimChars cs = [] := by
  unfold trimChars
  rw [(trimLeftChars_eq_nil_iff cs).mpr h]
  rfl

/-- Trimming removes surrounding whitespace padding entirely. -/
theorem trimChars_pad (ws1 t ws2 : List Char)
    (h1 : ∀ c ∈ ws1, c.isWhitespace = true)
    (h2 : ∀ c ∈ ws2, c.isWhitespace = true) :
    trimChars (ws1 ++ t ++ ws2) = trimChars t := by
  by_cases ht : trimLeftChars t = []
  · have hallt : ∀ c ∈ t, c.isWhitespace = true :=
      (trimLeftChars_eq_nil_iff t).mp ht
    have hall : ∀ c ∈ ws1 ++ t ++ ws2, c.isWhitespace = true := by
      intro c hc
      simp only [List.append_assoc, List.mem_append] at hc
      rcases hc with hc | hc | hc
      · exact h1 c hc
      · exact hallt c hc
      · exact h2 c hc
    rw [trimChars_of_allWs _ hall, trimChars_of_allWs _ hallt]
  · unfold trimChars
    rw [List.append_assoc, trimLeftChars_append_ws ws1 _ h1,
      trimLeftChars_append_of_ne_nil t ws2 ht, List.reverse_append,
      trimLeftChars_append_ws ws2.reverse _
        (fun c hc => h2 c (List.mem_reverse.mp hc))]

/-- Trimming commutes with lowercasing. -/
theorem trimChars_map_lower (cs : List Char) :
    trimChars (cs.map jsCharToLower) = (trimChars cs).map jsCharToLower := by
  unfold trimChars
  rw [trimLeftChars_map_lower, ← List.map_reverse, trimLeftChars_map_lower,
    ← List.map_reverse]

/-- Characterization of the prefix test. -/
theorem startsWithList_iff (pat l : List Char) :
    startsWithList pat l = true ↔ ∃ post, l = pat ++ post := by
  induction pat generalizing l with
  | nil => simp [startsWithList]
  | cons p ps ih =>
      cases l with
      | nil => simp [startsWithList]
      | cons c cs =>
          simp only [startsWithList, Bool.and_eq_true, beq_iff_eq, ih,
            List.cons_append, List.cons.injEq]
          constructor
          · rintro ⟨rfl, post, rfl⟩
            exact ⟨post, rfl, rfl⟩
          · rintro ⟨post, rfl, rfl⟩
            exact ⟨rfl, post, rfl⟩

/-- Characterization of the substring test: some occurrence splits the
haystack. -/
theorem listIncludes_iff (l pat : List Char) :
    listIncludes l pat = true ↔ ∃ pre post, l = pre ++ (pat ++ post) := by
  induction l with
  | nil =>
      simp only [listIncludes, startsWithList_iff]
      constructor
      · rintro ⟨post, h⟩
        exact ⟨[], post, h⟩
      · rintro ⟨pre, post, h⟩
        rcases List.append_eq_nil.mp h.symm with ⟨rfl, h2⟩
        exact ⟨post, h2.symm⟩
  | cons c rest ih =>
      simp only [listIncludes, Bool.or_eq_true, startsWithList_iff, ih]
      constructor
      · rintro (⟨post, h⟩ | ⟨pre, post, h⟩)
        · exact ⟨[], post, by simpa using h⟩
        · exact ⟨c :: pre, post, by simp [h]⟩
      · rintro ⟨pre, post, h⟩
        cases pre with
        | nil => exact Or.inl ⟨post, by simpa using h⟩
        | cons a pre' =>
            simp only [List.cons_append, List.cons.injEq] at h
            exact Or.inr ⟨pre', post, h.2⟩

/-- Unfolding equation: searching in a cons. -/
theorem listIncludes_cons (c : Char) (rest pat : List Char) :
    listIncludes (c :: rest) pat =
      (startsWithList pat (c :: rest) || listIncludes rest pat) := rfl

/-- Substring occurrence is preserved by reversal. -/
theorem listIncludes_reverse (l pat : List Char) :
    listIncludes l.reverse pat.reverse = listIncludes l pat := by
  cases h1 : listIncludes l pat with
  | true =>
      obtain ⟨pre, post, rfl⟩ := (listIncludes_iff l pat).mp h1
      apply (listIncludes_iff _ _).mpr
      exact ⟨post.reverse, pre.reverse, by simp⟩
  | false =>
      cases h2 : listIncludes l.reverse pat.reverse with
      | false => rfl
      | true =>
          obtain ⟨pre, post, hsplit⟩ :=
            (listIncludes_iff l.reverse pat.reverse).mp h2
          have hl : l = post.reverse ++ (pat ++ pre.reverse) := by
            have := congrArg List.reverse hsplit
            simpa using this
          have hc : listIncludes l pat = true :=
            (listIncludes_iff l pat).mpr ⟨post.reverse, pre.reverse, hl⟩
          rw [h1] at hc
          exact hc.symm

/-- Left-trimming cannot destroy an occurrence of a pattern whose first
character is not whitespace. -/
theorem listIncludes_trimLeft (l pat : List Char) (p0 : Char) (ps : List Char)
    (hpat : pat = p0 :: ps) (hp0 : p0.isWhitespace = false)
    (h : listIncludes l pat = true) :
    listIncludes (trimLeftChars l) pat = true := by
  induction l with
  | nil => exact h
  | cons c rest ih =>
      cases hc : c.isWhitespace with
      | false => simpa [trimLeftChars, hc] using h
      | true =>
          rw [show trimLeftChars (c :: rest) = trimLeftChars rest by
            simp [trimLeftChars, hc]]
          apply ih
          subst hpat
          rw [listIncludes_cons] at h
          cases hpre : startsWithList (p0 :: ps) (c :: rest) with
          | true =>
              exfalso
              rw [startsWithList, Bool.and_eq_true, beq_iff_eq] at hpre
              rw [hpre.1, hc] at hp0
              exact Bool.true_eq_false.mp hp0
          | false =>
              rw [hpre, Bool.false_or] at h
              exact h

/-- Trimming cannot destroy an occurrence of a pattern that neither starts
nor ends with whitespace. -/
theorem listIncludes_trimChars (l pat : List Char) (p0 q0 : Char)
    (ps qs : List Char) (hpat : pat = p0 :: ps) (hp0 : p0.isWhitespace = false)
    (hrev : pat.reverse = q0 :: qs) (hq0 : q0.isWhitespace = false)
    (h : listIncludes l pat = true) :
    listIncludes (trimChars l) pat = true := by
  unfold trimChars
  have h1 := listIncludes_trimLeft l pat p0 ps hpat hp0 h
  have h2 : listIncludes (trimLeftChars l).reverse pat.reverse = true := by
    rw [listIncludes_reverse]
    exact h1
  have h3 := listIncludes_trimLeft _ _ q0 qs hrev hq0 h2
  have h4 :
      listIncludes (trimLeftChars (trimLeftChars l).reverse).reverse
        pat.reverse.reverse = true := by
    rw [listIncludes_reverse]
    exact h3
  rwa [List.reverse_reverse] at h4

/-! ### Stage invariants

`StageOk env nk tr r` bundles the facts, shared by every pipeline stage
result `r` reached with trace-so-far `tr` and normalized key `nk`, that the
claims about the handler need: cross-origin headers on every branch, no
cache modification and no cache-write event on any non-200 outcome, no 400
outcome, the trace extends `tr`, store queries only use `nk`, no cache
probe is added after the initial one, and a `found:false` body is exactly a
validated record with the system fields assigned from the environment and
`nk`. -/
def StageOk (env : Env) (nk : String) (tr : List Event) (r : HResult) : Prop :=
  r.response.headers = corsHeaders ∧
  (r.response.statusCode ≠ 200 → r.cache = env.cache ∧
    ∀ key j, Event.cacheSetEv key j ∈ r.trace → Event.cacheSetEv key j ∈ tr) ∧
  r.response.statusCode ≠ 400 ∧
  (∃ tail, r.trace = tr ++ tail) ∧
  (∀ key, Event.storeQueryEv key ∈ r.trace →
    Event.storeQueryEv key ∈ tr ∨ key = nk) ∧
  (∀ key, Event.cacheGetEv key ∈ r.trace → Event.cacheGetEv key ∈ tr) ∧
  (∀ j, r.response.body = RBody.item false j →
    ∃ itm, validateInput itm = true ∧
      j = assignSystemFields itm env.uuid env.isoNow nk)

/-- A literal stage result with trace `tr ++ extra` satisfies the bundle
when the appended events are benign. -/
theorem StageOk_lit (env : Env) (nk : String) (tr extra : List Event)
    (resp : Response) (cache' : Cache)
    (hhdr : resp.headers = corsHeaders)
    (hcode200 : resp.statusCode ≠ 200 → cache' = env.cache)
    (hcode400 : resp.statusCode ≠ 400)
    (hset : resp.statusCode ≠ 200 → ∀ key j, Event.cacheSetEv key j ∉ extra)
    (hq : ∀ key, Event.storeQueryEv key ∈ extra → key = nk)
    (hg : ∀ key, Event.cacheGetEv key ∉ extra)
    (hbody : ∀ j, resp.body = RBody.item false j →
      ∃ itm, validateInput itm = true ∧
        j = assignSystemFields itm env.uuid env.isoNow nk) :
    StageOk env nk tr ⟨resp, cache', tr ++ extra⟩ := by
  refine ⟨hhdr, ?_, hcode400, ⟨extra, rfl⟩, ?_, ?_, hbody⟩
  · intro hne
    refine ⟨hcode200 hne, fun key j hm => ?_⟩
    rcases List.mem_append.mp hm with h | h
    · exact h
    · exact absurd h (hset hne key j)
  · intro key hm
    rcases List.mem_append.mp hm with h | h
    · exact Or.inl h
    · exact Or.inr (hq key h)
  · intro key hm
    rcases List.mem_append.mp hm with h | h
    · exact h
    · exact absurd h (hg key)

/-- The bundle established for an extended trace transfers to the shorter
trace when the extension is benign. -/
theorem StageOk_extend (env : Env) (nk : String) (tr extra : List Event)
    (r : HResult) (h : StageOk env nk (tr ++ extra) r)
    (hset : ∀ key j, Event.cacheSetEv key j ∉ extra)
    (hq : ∀ key, Event.storeQueryEv key ∈ extra → key = nk)
    (hg : ∀ key, Event.cacheGetEv key ∉ extra) :
    StageOk env nk tr r := by
  obtain ⟨h0, h1, h2, h3, h4, h5, h6⟩ := h
  refine ⟨h0, ?_, h2, ?_, ?_, ?_, h6⟩
  · intro hne
    obtain ⟨hc, hs⟩ := h1 hne
    refine ⟨hc, fun key j hm => ?_⟩
    rcases List.mem_append.mp (hs key j hm) with h | h
    · exact h
    · exact absurd h (hset key j)
  · obtain ⟨tail, ht⟩ := h3
    exact ⟨extra ++ tail, by rw [ht, List.append_assoc]⟩
  · intro key hm
    rcases h4 key hm with h | h
    · rcases List.mem_append.mp h with h | h
      · exact Or.inl h
      · exact Or.inr (hq key h)
    · exact Or.inr h
  · intro key hm
    rcases List.mem_append.mp (h5 key hm) with h | h
    · exact h
    · exact absurd h (hg key)

/-- The validation stage satisfies the bundle. -/
theorem validateStage_ok (env : Env) (s nk ck : String) (itm : Json)
    (tr : List Event) : StageOk env nk tr (validateStage env s nk ck itm tr) := by
  unfold validateStage
  cases hvi : validateInput itm with
  | false =>
      rw [if_neg Bool.false_ne_true]
      apply StageOk_lit
      · rfl
      · exact fun _ => rfl
      · decide
      · intro _ key j hm
        simp at hm
      · intro key hm
        simp at hm
      · intro key hm
        simp at hm
      · intro j h
        simp at h
  | true =>
      rw [if_pos rfl]
      cases hcons : isConsumableIngredient itm with
      | false =>
          rw [if_neg Bool.false_ne_true]
          apply StageOk_lit
          · rfl
          · exact fun _ => rfl
          · intro h
            simp at h
          · intro _ key j hm
            simp at hm
          · intro key hm
            simp at hm
          · intro key hm
            simp at hm
          · intro j h
            simp at h
      | true =>
          rw [if_pos rfl]
          dsimp only
          cases hstor : validateStorage
              (assignSystemFields itm env.uuid env.isoNow nk) with
          | false =>
              rw [if_neg Bool.false_ne_true]
              apply StageOk_lit
              · rfl
              · exact fun _ => rfl
              · decide
              · intro _ key j hm
                simp at hm
              · intro key hm
                simp at hm
              · intro key hm
                simp at hm
              · intro j h
                simp at h
          | true =>
              rw [if_pos rfl]
              cases env.putResult with
              | error u =>
                  apply StageOk_lit
                  · rfl
                  · exact fun _ => rfl
                  · decide
                  · intro _ key j hm
                    simp at hm
                  · intro key hm
                    simp at hm
                  · intro key hm
                    simp at hm
                  · intro j h
                    simp at h
              | ok u =>
                  apply StageOk_lit
                  · rfl
                  · exact fun h => absurd rfl h
                  · intro h
                    simp at h
                  · exact fun h => absurd rfl h
                  · intro key hm
                    simp at hm
                  · intro key hm
                    simp at hm
                  · intro j h
                    simp only [RBody.item.injEq] at h
                    exact ⟨itm, hvi, h.2.symm⟩

/-- A literal stage result that leaves the trace unchanged satisfies the
bundle. -/
theorem StageOk_lit_nil (env : Env) (nk : String) (tr : List Event)
    (resp : Response) (cache' : Cache)
    (hhdr : resp.headers = corsHeaders)
    (hcode200 : resp.statusCode ≠ 200 → cache' = env.cache)
    (hcode400 : resp.statusCode ≠ 400)
    (hbody : ∀ j, resp.body = RBody.item false j →
      ∃ itm, validateInput itm = true ∧
        j = assignSystemFields itm env.uuid env.isoNow nk) :
    StageOk env nk tr ⟨resp, cache', tr⟩ := by
  have h := StageOk_lit env nk tr [] resp cache' hhdr hcode200 hcode400
    (fun _ key j => by simp) (fun key h => by simp at h) (fun key => by simp)
    hbody
  rwa [List.append_nil] at h

/-- The parse stage satisfies the bundle. -/
theorem parseStage_ok (jsonParse : String → Option Json) (env : Env)
    (s nk ck content : String) (tr : List Event) :
    StageOk env nk tr (parseStage jsonParse env s nk ck content tr) := by
  unfold parseStage
  cases hm : strIncludes (jsToLowerStr content) errorMarker with
  | true =>
      rw [if_pos rfl]
      apply StageOk_lit_nil
      · rfl
      · exact fun _ => rfl
      · intro h
        simp at h
      · intro j h
        simp at h
  | false =>
      rw [if_neg Bool.false_ne_true]
      cases he : extractJsonSpan content with
      | none =>
          apply StageOk_lit_nil
          · rfl
          · exact fun _ => rfl
          · intro h
            simp at h
          · intro j h
            simp at h
      | some js =>
          dsimp only
          cases hp : jsonParse js with
          | none =>
              apply StageOk_lit
              · rfl
              · exact fun _ => rfl
              · intro h
                simp at h
              · intro _ key j hm
                simp at hm
              · intro key hm
                simp at hm
              · intro key hm
                simp at hm
              · intro j h
                simp at h
          | some itm =>
              apply StageOk_extend env nk tr [Event.parseEv js]
              · exact validateStage_ok env s nk ck itm (tr ++ [Event.parseEv js])
              · intro key j
                simp
              · intro key h
                simp at h
              · intro key
                simp

/-- The generation stage satisfies the bundle. -/
theorem generateStage_ok (jsonParse : String → Option Json) (env : Env)
    (s nk ck : String) (tr : List Event) :
    StageOk env nk tr (generateStage jsonParse env s nk ck tr) := by
  unfold generateStage
  cases env.openAIResult with
  | error u =>
      apply StageOk_lit
      · rfl
      · exact fun _ => rfl
      · intro h
        simp at h
      · intro _ key j hm
        simp at hm
      · intro key hm
        simp at hm
      · intro key hm
        simp at hm
      · intro j h
        simp at h
  | ok raw =>
      apply StageOk_extend env nk tr [Event.generateCallEv]
      · exact parseStage_ok jsonParse env s nk ck (jsTrim raw)
          (tr ++ [Event.generateCallEv])
      · intro key j
        simp
      · intro key h
        simp at h
      · intro key
        simp

/-- The store stage satisfies the bundle. -/
theorem storeStage_ok (jsonParse : String → Option Json) (env : Env)
    (s nk ck : String) (tr : List Event) :
    StageOk env nk tr (storeStage jsonParse env s nk ck tr) := by
  unfold storeStage
  cases env.storeResult with
  | error u =>
      apply StageOk_lit
      · rfl
      · exact fun _ => rfl
      · intro h
        simp at h
      · intro _ key j hm
        simp at hm
      · intro key hm
        simp at hm
        exact hm
      · intro key hm
        simp at hm
      · intro j h
        simp at h
  | ok items =>
      cases items with
      | nil =>
          apply StageOk_extend env nk tr [Event.storeQueryEv nk]
          · exact generateStage_ok jsonParse env s nk ck
              (tr ++ [Event.storeQueryEv nk])
          · intro key j
            simp
          · intro key h
            simp at h
            exact h
          · intro key
            simp
      | cons itemData rest =>
          apply StageOk_lit
          · rfl
          · exact fun h => absurd rfl h
          · intro h
            simp at h
          · exact fun h => absurd rfl h
          · intro key hm
            simp at hm
            exact hm
          · intro key hm
            simp at hm
          · intro j h
            simp at h

/-- A falsy `name` parameter makes the handler return the 400 response
immediately, leaving the cache untouched. -/
theorem handler_400 (sha256hex : String → String)
    (jsonParse : String → Option Json) (env : Env)
    (hf : jsFalsyName env.searchName = true) :
    handler sha256hex jsonParse env =
      ⟨⟨400, corsHeaders, .err m400⟩, env.cache, []⟩ := by
  unfold handler
  rw [hf, if_pos rfl]

/-- The searched name is non-falsy exactly when it is a non-empty string. -/
theorem jsFalsyName_false (env : Env) (s : String)
    (hs : env.searchName = some s) (hne : s ≠ "") :
    jsFalsyName env.searchName = false := by
  rw [hs]
  show (s == "") = false
  exact beq_eq_false_iff_ne.mpr hne

/-- A fresh truthy cache entry makes the handler return it directly. -/
theorem handler_hit (sha256hex : String → String)
    (jsonParse : String → Option Json) (env : Env) (s : String) (d : Json)
    (hs : env.searchName = some s) (hne : s ≠ "")
    (hhit : cacheHitData env.cache (sha256hex (normalizeName s)) env.now =
      some d) :
    handler sha256hex jsonParse env =
      ⟨⟨200, corsHeaders, .item true d⟩, env.cache,
       [.cacheGetEv (sha256hex (normalizeName s))]⟩ := by
  unfold cacheHitData at hhit
  cases hg : getCachedResponse env.cache (sha256hex (normalizeName s))
      env.now with
  | none => rw [hg] at hhit; exact absurd hhit (by simp)
  | some d' =>
      rw [hg] at hhit
      have hhit' : (if jsTruthy d' then some d' else none) = some d := hhit
      cases ht : jsTruthy d' with
      | false =>
          rw [if_neg (by rw [ht]; exact Bool.false_ne_true)] at hhit'
          exact absurd hhit' (by simp)
      | true =>
          rw [if_pos ht] at hhit'
          obtain rfl : d' = d := Option.some.inj hhit'
          unfold handler
          rw [jsFalsyName_false env s hs hne, if_neg Bool.false_ne_true, hs]
          simp only [Option.getD_some]
          rw [hg]
          dsimp only
          rw [ht, if_pos rfl]

/-- A cache miss (absent, stale or falsy entry) sends the handler into the
store stage. -/
theorem handler_miss (sha256hex : String → String)
    (jsonParse : String → Option Json) (env : Env) (s : String)
    (hs : env.searchName = some s) (hne : s ≠ "")
    (hmiss : cacheHitData env.cache (sha256hex (normalizeName s)) env.now =
      none) :
    handler sha256hex jsonParse env =
      storeStage jsonParse env s (normalizeName s)
        (sha256hex (normalizeName s))
        [.cacheGetEv (sha256hex (normalizeName s))] := by
  unfold cacheHitData at hmiss
  unfold handler
  rw [jsFalsyName_false env s hs hne, if_neg Bool.false_ne_true, hs]
  simp only [Option.getD_some]
  cases hg : getCachedResponse env.cache (sha256hex (normalizeName s))
      env.now with
  | none => rfl
  | some d' =>
      rw [hg] at hmiss
      have hmiss' : (if jsTruthy d' then some d' else none) = none := hmiss
      cases ht : jsTruthy d' with
      | true =>
          rw [if_pos ht] at hmiss'
          exact absurd hmiss' (by simp)
      | false =>
          dsimp only
          rw [ht, if_neg Bool.false_ne_true]

/-! ### Claim C9: the cache is written only on success paths -/

/-- Claim C9: whenever the response status is not 200 the handler leaves
the in-memory cache unchanged and its trace contains no cache-write event;
the only cache writes happen after a persistent-store hit or after a
successful persistence of a freshly generated item, both 200 responses. -/
theorem no_cache_write_on_error (sha256hex : String → String)
    (jsonParse : String → Option Json) (env : Env)
    (h : (handler sha256hex jsonParse env).response.statusCode ≠ 200) :
    (handler sha256hex jsonParse env).cache = env.cache ∧
    ∀ key j, Event.cacheSetEv key j ∉ (handler sha256hex jsonParse env).trace := by
  cases hf : jsFalsyName env.searchName with
  | true =>
      rw [handler_400 sha256hex jsonParse env hf]
      exact ⟨rfl, by intro key j hm; simp at hm⟩
  | false =>
      obtain ⟨s, hs, hne⟩ : ∃ s, env.searchName = some s ∧ s ≠ "" := by
        cases hsn : env.searchName with
        | none => rw [hsn] at hf; exact absurd hf (by simp [jsFalsyName])
        | some s =>
            refine ⟨s, rfl, fun hse => ?_⟩
            rw [hsn, hse] at hf
            simp [jsFalsyName] at hf
      cases hcd : cacheHitData env.cache (sha256hex (normalizeName s))
          env.now with
      | some d =>
          rw [handler_hit sha256hex jsonParse env s d hs hne hcd] at h
          exact absurd rfl h
      | none =>
          rw [handler_miss sha256hex jsonParse env s hs hne hcd] at h ⊢
          obtain ⟨-, h1, -, -, -, -, -⟩ := storeStage_ok jsonParse env s
            (normalizeName s) (sha256hex (normalizeName s))
            [Event.cacheGetEv (sha256hex (normalizeName s))]
          obtain ⟨hc, hset⟩ := h1 h
          refine ⟨hc, fun key j hm => ?_⟩
          have := hset key j hm
          simp at this

/-- Witness for C9: a request failing at the store query (500) leaves the
cache unchanged. -/
theorem no_cache_write_on_error_witness :
    (handler (fun x => x) (fun _ => none)
      ⟨some "ginger", [("g", ⟨Json.null, 0⟩)], 0, .error (), .ok "", .ok (),
       "u", "t"⟩).cache = [("g", ⟨Json.null, 0⟩)] :=
  (no_cache_write_on_error (fun x => x) (fun _ => none)
    ⟨some "ginger", [("g", ⟨Json.null, 0⟩)], 0, .error (), .ok "", .ok (),
     "u", "t"⟩ (by decide)).1

/-! ### Claim C10: a whitespace-only name is not a missing name -/

/-- Claim C10: a non-empty all-whitespace `name` passes the presence check
(no 400 response), and the request proceeds with the empty string as the
normalized key: the initial cache probe uses the digest of `""` and any
store query in the trace uses the key `""`. -/
theorem whitespace_name_not_400 (sha256hex : String → String)
    (jsonParse : String → Option Json) (env : Env) (s : String)
    (hs : env.searchName = some s) (hne : s ≠ "")
    (hws : ∀ c ∈ s.data, c.isWhitespace = true) :
    (handler sha256hex jsonParse env).response.statusCode ≠ 400 ∧
    normalizeName s = "" ∧
    (handler sha256hex jsonParse env).trace.head? =
      some (.cacheGetEv (sha256hex "")) ∧
    (∀ key, Event.storeQueryEv key ∈ (handler sha256hex jsonParse env).trace →
      key = "") := by
  have hn : normalizeName s = "" := by
    unfold normalizeName jsTrim jsToLowerStr
    rw [show trimChars s.data = [] from trimChars_of_allWs s.data hws]
    rfl
  cases hcd : cacheHitData env.cache (sha256hex (normalizeName s))
      env.now with
  | some d =>
      rw [handler_hit sha256hex jsonParse env s d hs hne hcd]
      refine ⟨by intro hx; simp at hx, hn, ?_, ?_⟩
      · rw [hn]
        rfl
      · intro key hm
        simp at hm
  | none =>
      rw [handler_miss sha256hex jsonParse env s hs hne hcd]
      obtain ⟨-, -, h400, ⟨tail, htr⟩, hq, -, -⟩ := storeStage_ok jsonParse env s
        (normalizeName s) (sha256hex (normalizeName s))
        [Event.cacheGetEv (sha256hex (normalizeName s))]
      refine ⟨h400, hn, ?_, ?_⟩
      · rw [htr, hn]
        rfl
      · intro key hm
        rcases hq key hm with h | h
        · simp at h
        · rw [h]
          exact hn

/-- Witness for C10: the single-space name. -/
theorem whitespace_name_not_400_witness :
    (handler (fun x => x) (fun _ => none)
      ⟨some " ", [], 0, .ok [], .ok "", .ok (), "u", "t"⟩).response.statusCode
      ≠ 400 ∧ normalizeName " " = "" :=
  ⟨(whitespace_name_not_400 (fun x => x) (fun _ => none)
      ⟨some " ", [], 0, .ok [], .ok "", .ok (), "u", "t"⟩ " " rfl (by decide)
      (by decide)).1,
   (whitespace_name_not_400 (fun x => x) (fun _ => none)
      ⟨some " ", [], 0, .ok [], .ok "", .ok (), "u", "t"⟩ " " rfl (by decide)
      (by decide)).2.1⟩

/-! ### Claim C5: one normalization feeds key, fingerprint and NameLowercase -/

/-- Looking up a key right after setting it yields the new value. -/
theorem lookup_setFieldList_self (fields : List (String × Json)) (k : String)
    (v : Json) : List.lookup k (setFieldList fields k v) = some v := by
  induction fields with
  | nil => simp [setFieldList, List.lookup]
  | cons kv rest ih =>
      obtain ⟨a, b⟩ := kv
      by_cases hk : a = k
      · subst hk
        simp [setFieldList, List.lookup]
      · have hk' : (a == k) = false := beq_eq_false_iff_ne.mpr hk
        have hk'' : (k == a) = false := beq_eq_false_iff_ne.mpr (Ne.symm hk)
        simpa [setFieldList, hk', List.lookup, hk''] using ih

/-- After system-field assignment the NameLowercase property holds exactly
the string passed in (a record reaching the assignment is an object, having
passed input validation). -/
theorem getField_assign_nameLower (itm : Json)
    (hvi : validateInput itm = true) (uuid isoNow nk : String) :
    getField (assignSystemFields itm uuid isoNow nk) "NameLowercase" =
      some (.str nk) := by
  cases itm with
  | obj fields =>
      show List.lookup "NameLowercase"
        (setFieldList (setFieldList (setFieldList fields "ItemID"
          (.str uuid)) "DateAdded" (.str isoNow)) "NameLowercase"
          (.str nk)) = some (.str nk)
      exact lookup_setFieldList_self _ _ _
  | null => simp [validateInput] at hvi
  | bool b => simp [validateInput] at hvi
  | num n => simp [validateInput] at hvi
  | str s2 => simp [validateInput] at hvi
  | arr es => simp [validateInput] at hvi

/-- The character data underlying `String.mk`. -/
theorem data_mk (l : List Char) : (String.mk l).data = l := rfl

/-- `normalizeName` in terms of the character-level helpers. -/
theorem normalizeName_data (s : String) :
    normalizeName s = String.mk ((trimChars s.data).map jsCharToLower) := rfl

/-- Normalization identifies search terms differing only in case and in
surrounding whitespace. -/
theorem normalizeName_pad_case (s t : String) (ws1 ws2 : List Char)
    (h1 : ∀ c ∈ ws1, c.isWhitespace = true)
    (h2 : ∀ c ∈ ws2, c.isWhitespace = true)
    (hcase : t.data.map jsCharToLower = s.data.map jsCharToLower) :
    normalizeName (String.mk (ws1 ++ t.data ++ ws2)) = normalizeName s := by
  rw [normalizeName_data, normalizeName_data, data_mk,
    trimChars_pad ws1 t.data ws2 h1 h2]
  congr 1
  rw [← trimChars_map_lower, ← trimChars_map_lower, hcase]

/-- Claim C5: for every request with a non-falsy search term, the cache
fingerprint input, the store lookup key and the `NameLowercase` field of
any freshly stored item are all derived from the one normalization of the
search input (never from the generator's name — the third conjunct holds
for every generator outcome in the environment); consequently search terms
that differ only in case or surrounding whitespace normalize identically. -/
theorem normalization_consistency (sha256hex : String → String)
    (jsonParse : String → Option Json) (env : Env) (s : String)
    (hs : env.searchName = some s) (hne : s ≠ "") :
    (∀ key, Event.cacheGetEv key ∈ (handler sha256hex jsonParse env).trace →
      key = sha256hex (normalizeName s)) ∧
    (∀ key, Event.storeQueryEv key ∈ (handler sha256hex jsonParse env).trace →
      key = normalizeName s) ∧
    (∀ j, (handler sha256hex jsonParse env).response.body =
        RBody.item false j →
      getField j "NameLowercase" = some (.str (normalizeName s))) ∧
    (∀ (t : String) (ws1 ws2 : List Char),
      (∀ c ∈ ws1, c.isWhitespace = true) →
      (∀ c ∈ ws2, c.isWhitespace = true) →
      t.data.map jsCharToLower = s.data.map jsCharToLower →
      normalizeName (String.mk (ws1 ++ t.data ++ ws2)) = normalizeName s) := by
  cases hcd : cacheHitData env.cache (sha256hex (normalizeName s))
      env.now with
  | some d =>
      rw [handler_hit sha256hex jsonParse env s d hs hne hcd]
      refine ⟨?_, ?_, ?_, ?_⟩
      · intro key hm
        simp at hm
        exact hm
      · intro key hm
        simp at hm
      · intro j hb
        simp at hb
      · exact fun t ws1 ws2 h1 h2 hcase =>
          normalizeName_pad_case s t ws1 ws2 h1 h2 hcase
  | none =>
      rw [handler_miss sha256hex jsonParse env s hs hne hcd]
      obtain ⟨-, -, -, -, hq, hg, hbody⟩ := storeStage_ok jsonParse env s
        (normalizeName s) (sha256hex (normalizeName s))
        [Event.cacheGetEv (sha256hex (normalizeName s))]
      refine ⟨?_, ?_, ?_, ?_⟩
      · intro key hm
        have h := hg key hm
        simp at h
        exact h
      · intro key hm
        rcases hq key hm with h | h
        · simp at h
        · exact h
      · intro j hb
        obtain ⟨itm, hvi, rfl⟩ := hbody j hb
        exact getField_assign_nameLower itm hvi env.uuid env.isoNow
          (normalizeName s)
      · exact fun t ws1 ws2 h1 h2 hcase =>
          normalizeName_pad_case s t ws1 ws2 h1 h2 hcase

/-- Witness for C5: a full generation run for the padded mixed-case search
term " GiNgEr " stores NameLowercase "ginger", and "  GINGER" normalizes
like "ginger ". -/
theorem normalization_consistency_witness :
    getField (assignSystemFields (Json.obj [("ItemType", Json.str "nutrient"),
      ("Name", Json.str "Ginger")]) "u" "2024-01-01T00:00:00.000Z"
      (normalizeName " GiNgEr ")) "NameLowercase" =
      some (Json.str "ginger") ∧
    normalizeName "  GINGER" = normalizeName "ginger" := by
  constructor
  · have h := (normalization_consistency (fun x => x)
      (fun _ => some (Json.obj [("ItemType", Json.str "nutrient"),
        ("Name", Json.str "Ginger")]))
      ⟨some " GiNgEr ", [], 0, .ok [], .ok "\x7b\"x\":0\x7d", .ok (), "u",
       "2024-01-01T00:00:00.000Z"⟩
      " GiNgEr " rfl (by decide)).2.2.1
      (assignSystemFields (Json.obj [("ItemType", Json.str "nutrient"),
        ("Name", Json.str "Ginger")]) "u" "2024-01-01T00:00:00.000Z"
        (normalizeName " GiNgEr "))
      rfl
    rwa [show normalizeName " GiNgEr " = "ginger" from rfl] at h
  · have h := (normalization_consistency (fun x => x) (fun _ => none)
      ⟨some "ginger", [], 0, .ok [], .ok "", .ok (), "u", "t"⟩
      "ginger" rfl (by decide)).2.2.2
      "GINGER" [' ', ' '] [] (by decide) (by decide) (by decide)
    simpa using h

/-! ### Claim C8: the generator error marker short-circuits to 404 -/

/-- An occurrence of the error marker in the lowercased reply survives
trimming (the marker contains no whitespace). -/
theorem marker_in_trim (raw : String)
    (h : strIncludes (jsToLowerStr raw) errorMarker = true) :
    strIncludes (jsToLowerStr (jsTrim raw)) errorMarker = true := by
  have h' : listIncludes (raw.data.map jsCharToLower) errorMarker.data =
    true := h
  have h2 : listIncludes (trimChars (raw.data.map jsCharToLower))
      errorMarker.data = true :=
    listIncludes_trimChars _ _ '"' ':' _ _ rfl rfl rfl rfl h'
  show listIncludes ((trimChars raw.data).map jsCharToLower)
    errorMarker.data = true
  rw [← trimChars_map_lower]
  exact h2

/-- Claim C8: when the store misses and the generator reply's lowercased
text contains the literal marker anywhere, the handler returns the 404
not-found response with the cache unchanged, and the trace ends at the
generation call — no parse attempt, no schema validation, no consumability
check, no persistence write and no cache write occur; the outcome is the
same for every JSON parser, so nothing was parsed. -/
theorem error_marker_short_circuit (sha256hex : String → String)
    (jsonParse : String → Option Json) (env : Env) (s raw : String)
    (hs : env.searchName = some s) (hne : s ≠ "")
    (hmiss : cacheHitData env.cache (sha256hex (normalizeName s)) env.now =
      none)
    (hstore : env.storeResult = .ok [])
    (hopen : env.openAIResult = .ok raw)
    (hmark : strIncludes (jsToLowerStr raw) errorMarker = true) :
    handler sha256hex jsonParse env =
      ⟨⟨404, corsHeaders, .err (m404 s)⟩, env.cache,
       [.cacheGetEv (sha256hex (normalizeName s)),
        .storeQueryEv (normalizeName s), .generateCallEv]⟩ := by
  rw [handler_miss sha256hex jsonParse env s hs hne hmiss]
  unfold storeStage
  rw [hstore]
  dsimp only
  unfold generateStage
  rw [hopen]
  dsimp only
  unfold parseStage
  rw [marker_in_trim raw hmark, if_pos rfl]
  rfl

/-- Witness for C8: the reply for an invalid item. -/
theorem error_marker_short_circuit_witness :
    handler (fun x => x) (fun _ => none)
      ⟨some "arsenic", [], 0, .ok [], .ok "\x7b\"error\": \"Invalid item\"\x7d",
       .ok (), "u", "t"⟩ =
      ⟨⟨404, corsHeaders, .err (m404 "arsenic")⟩, [],
       [.cacheGetEv "arsenic", .storeQueryEv "arsenic",
        .generateCallEv]⟩ := by
  have h := error_marker_short_circuit (fun x => x) (fun _ => none)
    ⟨some "arsenic", [], 0, .ok [], .ok "\x7b\"error\": \"Invalid item\"\x7d",
     .ok (), "u", "t"⟩ "arsenic" "\x7b\"error\": \"Invalid item\"\x7d"
    rfl (by decide) rfl rfl rfl (by decide)
  simpa using h

/-! ### Claim C1: the response table -/

/-- Claim C1: the handler realizes exactly the spec's status/body table —
400 for a falsy name; 200 `{found:true}` on a cache hit or store hit; 502
when the generation call fails; 404 when the generator signals an invalid
item or the consumability check fails; 500 for a parse failure, an
input-schema or storage-schema failure, a persistence failure, or the
outermost catch (here: a store-query throw); 200 `{found:false}` with the
augmented item after a successful generation run — and every branch carries
the permissive cross-origin headers. -/
theorem handler_response_table (sha256hex : String → String)
    (jsonParse : String → Option Json) (env : Env) :
    (handler sha256hex jsonParse env).response.headers = corsHeaders ∧
    (jsFalsyName env.searchName = true →
      (handler sha256hex jsonParse env).response =
        ⟨400, corsHeaders, .err m400⟩) ∧
    (∀ s, env.searchName = some s → s ≠ "" →
      (∀ d, cacheHitData env.cache (sha256hex (normalizeName s)) env.now =
          some d →
        (handler sha256hex jsonParse env).response =
          ⟨200, corsHeaders, .item true d⟩) ∧
      (cacheHitData env.cache (sha256hex (normalizeName s)) env.now = none →
        (env.storeResult = .error () →
          (handler sha256hex jsonParse env).response =
            ⟨500, corsHeaders, .err mInternal⟩) ∧
        (∀ it rest, env.storeResult = .ok (it :: rest) →
          (handler sha256hex jsonParse env).response =
            ⟨200, corsHeaders, .item true it⟩) ∧
        (env.storeResult = .ok [] →
          (env.openAIResult = .error () →
            (handler sha256hex jsonParse env).response =
              ⟨502, corsHeaders, .err m502⟩) ∧
          (∀ raw, env.openAIResult = .ok raw →
            (strIncludes (jsToLowerStr (jsTrim raw)) errorMarker = true →
              (handler sha256hex jsonParse env).response =
                ⟨404, corsHeaders, .err (m404 s)⟩) ∧
            (strIncludes (jsToLowerStr (jsTrim raw)) errorMarker = false →
              (extractJsonSpan (jsTrim raw) = none →
                (handler sha256hex jsonParse env).response =
                  ⟨500, corsHeaders, .err mParse⟩) ∧
              (∀ js, extractJsonSpan (jsTrim raw) = some js →
                (jsonParse js = none →
                  (handler sha256hex jsonParse env).response =
                    ⟨500, corsHeaders, .err mParse⟩) ∧
                (∀ itm, jsonParse js = some itm →
                  (validateInput itm = false →
                    (handler sha256hex jsonParse env).response =
                      ⟨500, corsHeaders, .err mInput⟩) ∧
                  (validateInput itm = true →
                    (isConsumableIngredient itm = false →
                      (handler sha256hex jsonParse env).response =
                        ⟨404, corsHeaders, .err (m404 s)⟩) ∧
                    (isConsumableIngredient itm = true →
                      (validateStorage (assignSystemFields itm env.uuid
                          env.isoNow (normalizeName s)) = false →
                        (handler sha256hex jsonParse env).response =
                          ⟨500, corsHeaders, .err mStorage⟩) ∧
                      (validateStorage (assignSystemFields itm env.uuid
                          env.isoNow (normalizeName s)) = true →
                        (env.putResult = .error () →
                          (handler sha256hex jsonParse env).response =
                            ⟨500, corsHeaders, .err mSave⟩) ∧
                        (env.putResult = .ok () →
                          (handler sha256hex jsonParse env).response =
                            ⟨200, corsHeaders, .item false
                              (assignSystemFields itm env.uuid env.isoNow
                                (normalizeName s))⟩))))))))))) := by
  refine ⟨?_, ?_, ?_⟩
  · cases hf : jsFalsyName env.searchName with
    | true =>
        rw [handler_400 sha256hex jsonParse env hf]
    | false =>
        obtain ⟨s, hs, hne⟩ : ∃ s, env.searchName = some s ∧ s ≠ "" := by
          cases hsn : env.searchName with
          | none => rw [hsn] at hf; exact absurd hf (by simp [jsFalsyName])
          | some s =>
              refine ⟨s, rfl, fun hse => ?_⟩
              rw [hsn, hse] at hf
              simp [jsFalsyName] at hf
        cases hcd : cacheHitData env.cache (sha256hex (normalizeName s))
            env.now with
        | some d => rw [handler_hit sha256hex jsonParse env s d hs hne hcd]
        | none =>
            rw [handler_miss sha256hex jsonParse env s hs hne hcd]
            exact (storeStage_ok jsonParse env s (normalizeName s)
              (sha256hex (normalizeName s))
              [Event.cacheGetEv (sha256hex (normalizeName s))]).1
  · intro hf
    rw [handler_400 sha256hex jsonParse env hf]
  · intro s hs hne
    refine ⟨?_, ?_⟩
    · intro d hcd
      rw [handler_hit sha256hex jsonParse env s d hs hne hcd]
    · intro hmiss
      have hh := handler_miss sha256hex jsonParse env s hs hne hmiss
      refine ⟨?_, ?_, ?_⟩
      · intro herr
        rw [hh]
        unfold storeStage
        rw [herr]
      · intro it rest hsr
        rw [hh]
        unfold storeStage
        rw [hsr]
      · intro hemp
        have hh2 : handler sha256hex jsonParse env =
            generateStage jsonParse env s (normalizeName s)
              (sha256hex (normalizeName s))
              ([Event.cacheGetEv (sha256hex (normalizeName s))] ++
               [Event.storeQueryEv (normalizeName s)]) := by
          rw [hh]
          unfold storeStage
          rw [hemp]
        refine ⟨?_, ?_⟩
        · intro hoe
          rw [hh2]
          unfold generateStage
          rw [hoe]
        · intro raw hok
          have hh3 : handler sha256hex jsonParse env =
              parseStage jsonParse env s (normalizeName s)
                (sha256hex (normalizeName s)) (jsTrim raw)
                (([Event.cacheGetEv (sha256hex (normalizeName s))] ++
                  [Event.storeQueryEv (normalizeName s)]) ++
                 [Event.generateCallEv]) := by
            rw [hh2]
            unfold generateStage
            rw [hok]
          refine ⟨?_, ?_⟩
          · intro hm
            rw [hh3]
            unfold parseStage
            rw [hm, if_pos rfl]
          · intro hm
            refine ⟨?_, ?_⟩
            · intro hex
              rw [hh3]
              unfold parseStage
              rw [hm, if_neg Bool.false_ne_true, hex]
            · intro js hex
              refine ⟨?_, ?_⟩
              · intro hp
                rw [hh3]
                unfold parseStage
                rw [hm, if_neg Bool.false_ne_true, hex]
                dsimp only
                rw [hp]
              · intro itm hp
                have hh5 : handler sha256hex jsonParse env =
                    validateStage env s (normalizeName s)
                      (sha256hex (normalizeName s)) itm
                      ((([Event.cacheGetEv (sha256hex (normalizeName s))] ++
                        [Event.storeQueryEv (normalizeName s)]) ++
                       [Event.generateCallEv]) ++ [Event.parseEv js]) := by
                  rw [hh3]
                  unfold parseStage
                  rw [hm, if_neg Bool.false_ne_true, hex]
                  dsimp only
                  rw [hp]
                refine ⟨?_, ?_⟩
                · intro hvi
                  rw [hh5]
                  unfold validateStage
                  rw [if_neg (by rw [hvi]; exact Bool.false_ne_true)]
                · intro hvi
                  refine ⟨?_, ?_⟩
                  · intro hcons
                    rw [hh5]
                    unfold validateStage
                    rw [if_pos hvi,
                      if_neg (by rw [hcons]; exact Bool.false_ne_true)]
                  · intro hcons
                    refine ⟨?_, ?_⟩
                    · intro hstor
                      rw [hh5]
                      unfold validateStage
                      rw [if_pos hvi, if_pos hcons]
                      dsimp only
                      rw [if_neg (by rw [hstor]; exact Bool.false_ne_true)]
                    · intro hstor
                      refine ⟨?_, ?_⟩
                      · intro hput
                        rw [hh5]
                        unfold validateStage
                        rw [if_pos hvi, if_pos hcons]
                        dsimp only
                        rw [if_pos hstor, hput]
                      · intro hput
                        rw [hh5]
                        unfold validateStage
                        rw [if_pos hvi, if_pos hcons]
                        dsimp only
                        rw [if_pos hstor, hput]

/-- A concrete generated ingredient used to exercise the success row of the
response table. -/
def c1item : Json :=
  Json.obj [("ItemType", Json.str "ingredient"),
    ("Name", Json.obj [("English", Json.str "Ginger")]),
    ("Category", Json.str "root vegetable")]

/-- A concrete environment: empty cache, store miss, generation succeeds,
persistence succeeds. -/
def c1env : Env :=
  ⟨some "Ginger", [], 0, .ok [], .ok "\x7b\"x\":0\x7d", .ok (), "u1",
   "2024-01-01T00:00:00.000Z"⟩

/-- Witness for C1: the freshly-generated-and-stored row at a concrete
input — status 200, `found:false`, the item carrying the system fields. -/
theorem handler_response_table_witness :
    (handler (fun x => x) (fun _ => some c1item) c1env).response =
      ⟨200, corsHeaders, RBody.item false (assignSystemFields c1item
        c1env.uuid c1env.isoNow (normalizeName "Ginger"))⟩ := by
  have h := handler_response_table (fun x => x) (fun _ => some c1item) c1env
  have hrows := h.2.2 "Ginger" rfl (by decide)
  have h1 := (hrows.2 rfl).2.2 rfl
  have h2 := (h1.2 "\x7b\"x\":0\x7d" rfl).2 rfl
  have h3 := (h2.2 "\x7b\"x\":0\x7d" rfl).2 c1item rfl
  have h4 := (h3.2 rfl).2 rfl
  exact (h4.2 rfl).2 rfl

end YinYang
